import Mathlib

/-!
Verification of the page-tree resolution engine and search/answer
aggregation pipeline of a documentation-site renderer.

The tree model mirrors `src/lib/pages.ts`: a revision's pages form an
ordered forest of nodes of three kinds (document, group, link).
-/

/-- A node of the page tree (`RevisionPage` in the source): a content
document, an organizational group, or a link. Links carry no children. -/
inductive RevisionPage where
  | document (docId docPath title : String) (pages : List RevisionPage)
  | group (docId docPath title : String) (pages : List RevisionPage)
  | link (docId title : String)

namespace RevisionPage

/-- The node's identifier (`page.id`). -/
def id : RevisionPage → String
  | .document i _ _ _ => i
  | .group i _ _ _ => i
  | .link i _ => i

/-- The node's path (`page.path`); links carry none. -/
def path : RevisionPage → String
  | .document _ p _ _ => p
  | .group _ p _ _ => p
  | .link _ _ => ""

/-- The node's title (`page.title`). -/
def title : RevisionPage → String
  | .document _ _ t _ => t
  | .group _ _ t _ => t
  | .link _ t => t

/-- The node's children (`page.pages`); links have none. -/
def pages : RevisionPage → List RevisionPage
  | .document _ _ _ ps => ps
  | .group _ _ _ ps => ps
  | .link _ _ => []

/-- `page.type === 'link'`. -/
def isLink : RevisionPage → Bool
  | .link _ _ => true
  | _ => false

/-- `page.type === 'document'`. -/
def isDocument : RevisionPage → Bool
  | .document _ _ _ _ => true
  | _ => false

/-- `page.type === 'group'`. -/
def isGroup : RevisionPage → Bool
  | .group _ _ _ _ => true
  | _ => false

end RevisionPage

/-- Result of a page resolution: the resolved document together with its
ancestor chain (root first, resolved page excluded). -/
structure Resolved where
  page : RevisionPage
  ancestors : List RevisionPage

/-- `resolveFirstDocument` from `pages.ts`: skip link nodes, then commit to
the first non-link entry — returning the document itself, or descending
into a group (appending it to the ancestor chain) without backtracking. -/
def resolveFirstDocument : List RevisionPage → List RevisionPage → Option Resolved
  | [], _ => none
  | .link _ _ :: rest, ancestors => resolveFirstDocument rest ancestors
  | .document i p t ps :: _, ancestors => some ⟨.document i p t ps, ancestors⟩
  | .group i p t ps :: _, ancestors =>
      resolveFirstDocument ps (ancestors ++ [.group i p t ps])

/-- `resolvePageDocument` from `pages.ts`: a document resolves to itself, a
group resolves to the first document found by descending into it, a link
never resolves. -/
def resolvePageDocument (page : RevisionPage) (ancestors : List RevisionPage) :
    Option Resolved :=
  match page with
  | .group i p t ps => resolveFirstDocument ps (ancestors ++ [.group i p t ps])
  | .link _ _ => none
  | .document i p t ps => some ⟨.document i p t ps, ancestors⟩

/-- The inner `iteratePages` of `resolvePagePath`: pre-order walk skipping
links; on a path match resolve the node (aborting the rest of the sibling
list even when resolution fails), otherwise recurse into its children. -/
def iteratePagesPath : List RevisionPage → List RevisionPage → String → Option Resolved
  | [], _, _ => none
  | .link _ _ :: rest, ancestors, pagePath => iteratePagesPath rest ancestors pagePath
  | .document i p t ps :: rest, ancestors, pagePath =>
      if p = pagePath then resolvePageDocument (.document i p t ps) ancestors
      else
        match iteratePagesPath ps (ancestors ++ [.document i p t ps]) pagePath with
        | some r => some r
        | none => iteratePagesPath rest ancestors pagePath
  | .group i p t ps :: rest, ancestors, pagePath =>
      if p = pagePath then resolvePageDocument (.group i p t ps) ancestors
      else
        match iteratePagesPath ps (ancestors ++ [.group i p t ps]) pagePath with
        | some r => some r
        | none => iteratePagesPath rest ancestors pagePath

/-- The inner `iteratePages` of `resolvePageId`: pre-order walk skipping
links; on an id match resolve the node, otherwise recurse into children. -/
def iteratePagesId : List RevisionPage → List RevisionPage → String → Option Resolved
  | [], _, _ => none
  | .link _ _ :: rest, ancestors, pageId => iteratePagesId rest ancestors pageId
  | .document i p t ps :: rest, ancestors, pageId =>
      if i = pageId then resolvePageDocument (.document i p t ps) ancestors
      else
        match iteratePagesId ps (ancestors ++ [.document i p t ps]) pageId with
        | some r => some r
        | none => iteratePagesId rest ancestors pageId
  | .group i p t ps :: rest, ancestors, pageId =>
      if i = pageId then resolvePageDocument (.group i p t ps) ancestors
      else
        match iteratePagesId ps (ancestors ++ [.group i p t ps]) pageId with
        | some r => some r
        | none => iteratePagesId rest ancestors pageId

/-- `resolvePagePath` from `pages.ts`: an empty path resolves to the first
document in reading order, otherwise the tree is searched for the path. -/
def resolvePagePath (rootPages : List RevisionPage) (pagePath : String) :
    Option Resolved :=
  if pagePath = "" then resolveFirstDocument rootPages []
  else iteratePagesPath rootPages [] pagePath

/-- `resolvePageId` from `pages.ts`. -/
def resolvePageId (rootPages : List RevisionPage) (pageId : String) :
    Option Resolved :=
  iteratePagesId rootPages [] pageId

/-- `flattenPages` from `pages.ts`: pre-order sequence of the document
nodes of the tree, links skipped, groups traversed but not emitted. -/
def flattenPages : List RevisionPage → List RevisionPage
  | [] => []
  | .link _ _ :: rest => flattenPages rest
  | .document i p t ps :: rest =>
      .document i p t ps :: (flattenPages ps ++ flattenPages rest)
  | .group _ _ _ ps :: rest => flattenPages ps ++ flattenPages rest

/-- Result of `resolvePrevNextPages`. -/
structure PrevNext where
  previous : Option RevisionPage
  next : Option RevisionPage

/-- JavaScript's `Array.prototype.findIndex`, with `none` for `-1`. -/
def findIndex (p : α → Bool) : List α → Option Nat
  | [] => none
  | a :: l => if p a then some 0 else (findIndex p l).map (· + 1)

/-- `resolvePrevNextPages` from `pages.ts`: locate the page by id in the
flattened sequence and take the adjacent entries. -/
def resolvePrevNextPages (rootPages : List RevisionPage) (page : RevisionPage) :
    PrevNext :=
  let flat := flattenPages rootPages
  match findIndex (fun p => p.id == page.id) flat with
  | none => ⟨none, none⟩
  | some i => ⟨if i = 0 then none else flat[i-1]?, flat[i+1]?⟩

/-! ## Search and answer aggregation model (from the search/ask module) -/

/-- A space (`Space` in the API): id, title and optional published/app URLs. -/
structure Space where
  spaceId : String
  title : String
  urlsPublished : Option String
  urlsApp : Option String

/-- A site-space: a space as it participates in a site, with its published URL. -/
structure SiteSpace where
  siteSpaceId : String
  space : Space
  urlsPublished : String

/-- A titled section of site-spaces in a sectioned site structure. -/
structure SiteSection where
  title : String
  siteSpaces : List SiteSpace

/-- The site structure: either a flat list of site-spaces or titled sections. -/
inductive SiteStructure where
  | siteSpaces (l : List SiteSpace)
  | sections (l : List SiteSection)

/-- A section snippet of one search page hit. -/
structure SearchSectionHit where
  sectionId : String
  title : String
  path : String
  body : String

/-- One page hit returned by the search backend (`SearchPageResult`). -/
structure SearchPageResult where
  resultId : String
  title : String
  path : String
  sections : Option (List SearchSectionHit)

/-- Per-space block of search hits. -/
structure SearchSpaceItem where
  spaceId : String
  pages : List SearchPageResult

/-- A computed search view record: a page or one of its sections. -/
inductive OrderedComputedResult where
  | page (pageId title href : String) (spaceTitle : Option String)
  | sectionHit (hitId title href body : String)

/-- The search scope argument of `searchSiteContent`. -/
inductive Scope where
  | all
  | current (siteSpaceId : String)
  | specific (siteSpaceIds : List String)

/-- Which backend collaborators a `searchSiteContent` call consulted. -/
structure SearchCalls where
  searchCalled : Bool
  structureCalled : Bool

/-- `s.endsWith c` for a single character (JavaScript `endsWith('/')`). -/
def endsWithChar (c : Char) (s : String) : Bool :=
  s.data.getLast? == some c

/-- `s.startsWith c` for a single character (JavaScript `startsWith('/')`). -/
def startsWithChar (c : Char) (s : String) : Bool :=
  s.data.head? == some c

/-- The `getURL` helper of `transformSectionsAndPage`: join a relative path
onto a space base URL normalizing the slash, or fall back to the site's
absolute-URL rule (`absoluteHref`, an external collaborator passed in). -/
def getURL (absHref : String → String) (path : String) : Option String → String
  | some spaceURL =>
      (if endsWithChar '/' spaceURL then spaceURL else spaceURL ++ "/") ++
        (if startsWithChar '/' path then path.drop 1 else path)
  | none => absHref path

/-- `transformSectionsAndPage`: one page hit and its section hits as view
records, the page record first. -/
def transformSectionsAndPage (absHref : String → String) (item : SearchPageResult)
    (space : Option Space) (spaceURL : Option String) :
    OrderedComputedResult × List OrderedComputedResult :=
  let sections := (item.sections.getD []).map fun s =>
    OrderedComputedResult.sectionHit (item.resultId ++ "/" ++ s.sectionId) s.title
      (getURL absHref s.path spaceURL) s.body
  let page := OrderedComputedResult.page item.resultId item.title
    (getURL absHref item.path spaceURL) (space.map (·.title))
  (page, sections)

/-- `transformSitePageResult`: page record followed by its sections, URLs
resolved against the site-space's published URL. -/
def transformSitePageResult (absHref : String → String) (item : SearchPageResult)
    (siteSpace : Option SiteSpace) : List OrderedComputedResult :=
  let ps := transformSectionsAndPage absHref item (siteSpace.map (·.space))
    (siteSpace.map (·.urlsPublished))
  ps.1 :: ps.2

/-- `transformPageResult`: page record followed by its sections, URLs
resolved against the space's published (or app) URL. -/
def transformPageResult (absHref : String → String) (item : SearchPageResult)
    (space : Option Space) : List OrderedComputedResult :=
  let ps := transformSectionsAndPage absHref item space
    ((space.bind (·.urlsPublished)).or (space.bind (·.urlsApp)))
  ps.1 :: ps.2

/-- The site-space directory computed inside `searchSiteContent`: a flat
structure is used as-is; a sectioned structure is flattened, each site-space
taking `section.title || siteSpace.space.title` as its space title. -/
def buildSiteSpaces : SiteStructure → List SiteSpace
  | .siteSpaces l => l
  | .sections secs =>
      secs.foldl (fun prev sec =>
        prev ++ sec.siteSpaces.map (fun ss =>
          { ss with space :=
            { ss.space with title := if sec.title = "" then ss.space.title else sec.title } }))
        []

/-- `searchSiteContent`: short-circuit trivial queries, otherwise transform
the backend's per-space hits, consulting the site structure when the scope
spans more than one space. The backend and the site structure are supplied
as inputs; the `SearchCalls` component records which of them were consulted. -/
def searchSiteContent (absHref : String → String) (backend : List SearchSpaceItem)
    (siteStruct : SiteStructure) (query : String) (scope : Scope) :
    List OrderedComputedResult × SearchCalls :=
  if query.length ≤ 1 then ([], ⟨false, false⟩)
  else
    let needsStructure :=
      match scope with
      | .all => true
      | .current _ => true
      | .specific ids => 1 < ids.length
    if needsStructure then
      let siteSpaces := buildSiteSpaces siteStruct
      (backend.flatMap (fun spaceItem =>
        (spaceItem.pages.map (fun item =>
          transformSitePageResult absHref item
            (siteSpaces.find? (fun ss => ss.space.spaceId == spaceItem.spaceId)))).flatten),
        ⟨true, true⟩)
    else
      (backend.flatMap (fun spaceItem =>
        (spaceItem.pages.map (fun item => transformPageResult absHref item none)).flatten),
        ⟨true, false⟩)

/-- A source attached to an AI answer chunk: a page reference or some other
source kind (only page sources are resolved). -/
inductive AskSource where
  | page (pageId spaceId : String)
  | snippet (srcId : String)

/-- The answer payload of a chunk: a rendered document or another form. -/
inductive AnswerContent where
  | document (doc : String)
  | plain (text : String)

/-- One streamed AI answer chunk (`SearchAIAnswer`). -/
structure SearchAIAnswer where
  answer : Option AnswerContent
  followupQuestions : List String
  sources : List AskSource

/-- A resolved answer source in the output view model. -/
structure AskAnswerSource where
  srcId : String
  title : String
  href : String
deriving DecidableEq

/-- The per-chunk output of the answer aggregator (`AskAnswerResult`); the
rendered body is modelled by the document payload it would render. -/
structure AskAnswerResult where
  body : Option String
  followupQuestions : List String
  sources : List AskAnswerSource
deriving DecidableEq

/-- The session-scoped space-content cache (`Map<string, RevisionPage[]>`),
as an insertion-ordered association list. -/
abbrev SpaceCache := List (String × List RevisionPage)

/-- `Map.has`. -/
def cacheHas (c : SpaceCache) (s : String) : Bool :=
  c.any (fun e => e.1 == s)

/-- `Map.get` (as an option). -/
def cacheGet (c : SpaceCache) (s : String) : Option (List RevisionPage) :=
  (c.find? (fun e => e.1 == s)).map (·.2)

/-- `Map.set` for a key not yet present. -/
def cacheSet (c : SpaceCache) (s : String) (v : List RevisionPage) : SpaceCache :=
  c ++ [(s, v)]

/-- The unique space ids referenced by the page-type sources of an answer,
in first-reference order (the `Set` built by `transformAnswer`). -/
def referencedSpaces (sources : List AskSource) : List String :=
  sources.foldl (fun acc src =>
    match src with
    | .page _ sp => if sp ∈ acc then acc else acc ++ [sp]
    | .snippet _ => acc) []

/-- Modelled from the spec: `api.getSpaceContentData` is an external
collaborator not present in the sources; it is modelled as a function from
a space id to its page list, `none` standing for a failed fetch, which per
the spec leaves that space's data missing from the session cache. The
`pMap` loop with `concurrency: 1` is modelled as this sequential pass; the
returned string list is the trace of spaces for which a fetch was issued. -/
def fetchSpaces (fetch : String → Option (List RevisionPage)) :
    SpaceCache → List String → SpaceCache × List String
  | cache, [] => (cache, [])
  | cache, sp :: rest =>
      if cacheHas cache sp then fetchSpaces fetch cache rest
      else
        match fetch sp with
        | some pages =>
            let next := fetchSpaces fetch (cacheSet cache sp pages) rest
            (next.1, sp :: next.2)
        | none =>
            let next := fetchSpaces fetch cache rest
            (next.1, sp :: next.2)

/-- The chunk body as rendered by `transformAnswer`: the document payload
when the answer is present in document form, nothing otherwise. -/
def answerBody (answer : SearchAIAnswer) : Option String :=
  match answer.answer with
  | some (.document d) => some d
  | _ => none

/-- `transformAnswer`: fetch the page lists of all spaces referenced by the
chunk's page sources (skipping cached ones), then resolve every page source
against the cache, dropping sources whose space data is missing or whose
page id does not resolve. `phref` models the external `pageHref` helper.
Returns the result, the updated cache and the fetch trace. -/
def transformAnswer (fetch : String → Option (List RevisionPage))
    (phref : List RevisionPage → RevisionPage → String)
    (answer : SearchAIAnswer) (spaceData : SpaceCache) :
    AskAnswerResult × SpaceCache × List String :=
  let spaces := referencedSpaces answer.sources
  let fetched := fetchSpaces fetch spaceData spaces
  let sources := answer.sources.filterMap (fun source =>
    match source with
    | .snippet _ => none
    | .page pid sp =>
        match cacheGet fetched.1 sp with
        | none => none
        | some pages =>
            match resolvePageId pages pid with
            | none => none
            | some r => some ⟨pid, r.page.title, phref pages r.page⟩)
  (⟨answerBody answer, answer.followupQuestions, sources⟩, fetched.1, fetched.2)

/-- The streaming loop of `streamAskQuestion`: skip empty chunks, transform
each chunk against the threaded cache, yield the results in order. Returns
the yielded results, the final cache and the concatenated fetch trace. -/
def runStream (fetch : String → Option (List RevisionPage))
    (phref : List RevisionPage → RevisionPage → String) :
    List (Option SearchAIAnswer) → SpaceCache →
    List AskAnswerResult × SpaceCache × List String
  | [], cache => ([], cache, [])
  | none :: rest, cache => runStream fetch phref rest cache
  | some a :: rest, cache =>
      let step := transformAnswer fetch phref a cache
      let next := runStream fetch phref rest step.2.1
      (step.1 :: next.1, next.2.1, step.2.2 ++ next.2.2)

/-- `streamAskQuestion` starts each aggregation session with an empty cache. -/
def streamAskQuestion (fetch : String → Option (List RevisionPage))
    (phref : List RevisionPage → RevisionPage → String)
    (chunks : List (Option SearchAIAnswer)) :
    List AskAnswerResult × SpaceCache × List String :=
  runStream fetch phref chunks []

/-- All space ids referenced by page sources over a whole session. -/
def sessionSpaces : List (Option SearchAIAnswer) → List String
  | [] => []
  | none :: rest => sessionSpaces rest
  | some a :: rest => referencedSpaces a.sources ++ sessionSpaces rest

/-- Whether a source is a page source that resolves against the cache. -/
def resolvesOk (cache : SpaceCache) : AskSource → Bool
  | .page pid sp =>
      match cacheGet cache sp with
      | none => false
      | some pages => (resolvePageId pages pid).isSome
  | .snippet _ => false

/-- The output entry a resolving page source yields (dummy for others). -/
def entryOf (phref : List RevisionPage → RevisionPage → String)
    (cache : SpaceCache) : AskSource → AskAnswerSource
  | .page pid sp =>
      match cacheGet cache sp with
      | none => ⟨pid, "", ""⟩
      | some pages =>
          match resolvePageId pages pid with
          | none => ⟨pid, "", ""⟩
          | some r => ⟨pid, r.page.title, phref pages r.page⟩
  | .snippet _ => ⟨"", "", ""⟩

/-! ## Specification-level descent (for the group-resolution refinement) -/

/-- The spec's leftmost descent: at each level take the first non-link
child; a document terminates the descent, a group is entered with itself
appended to the ancestor chain, a dead end (no non-link child left, or a
link reached) yields a failure. -/
def specFirstDoc : List RevisionPage → List RevisionPage → Option Resolved
  | [], _ => none
  | p :: rest, ancestors =>
      if p.isLink then specFirstDoc rest ancestors
      else
        match p with
        | .document i pa t ps => some ⟨.document i pa t ps, ancestors⟩
        | .group i pa t ps => specFirstDoc ps (ancestors ++ [.group i pa t ps])
        | .link _ _ => none

/-- The spec's account of the shared document-resolution helper: a document
is returned as-is, a link fails, a group starts the leftmost descent with
itself appended to the chain. -/
def specDescent (page : RevisionPage) (ancestors : List RevisionPage) :
    Option Resolved :=
  match page with
  | .document i p t ps => some ⟨.document i p t ps, ancestors⟩
  | .link _ _ => none
  | .group i p t ps => specFirstDoc ps (ancestors ++ [.group i p t ps])

/-- All node identifiers of a forest, every node kind included. -/
def allIds : List RevisionPage → List String
  | [] => []
  | .document i _ _ ps :: rest => i :: (allIds ps ++ allIds rest)
  | .group i _ _ ps :: rest => i :: (allIds ps ++ allIds rest)
  | .link i _ :: rest => i :: allIds rest

/-- `ChainTo pages c d` holds when node `d` occurs somewhere in the forest
`pages` and `c` is the ordered list of its strict ancestors (root first). -/
inductive ChainTo : List RevisionPage → List RevisionPage → RevisionPage → Prop where
  | here (p : RevisionPage) (rest : List RevisionPage) : ChainTo (p :: rest) [] p
  | inside (p : RevisionPage) (rest : List RevisionPage) (c : List RevisionPage)
      (d : RevisionPage) : ChainTo p.pages c d → ChainTo (p :: rest) (p :: c) d
  | there (p : RevisionPage) (rest : List RevisionPage) (c : List RevisionPage)
      (d : RevisionPage) : ChainTo rest c d → ChainTo (p :: rest) c d

theorem allIds_cons (p : RevisionPage) (rest : List RevisionPage) :
    allIds (p :: rest) = p.id :: (allIds p.pages ++ allIds rest) := by
  cases p <;> simp [allIds, RevisionPage.id, RevisionPage.pages]

theorem chainTo_one_le_count {pages c d} (h : ChainTo pages c d) :
    1 ≤ (allIds pages).count d.id := by
  induction h with
  | here p rest => simp [allIds_cons]
  | inside p rest c d _ ih =>
      rw [allIds_cons]
      simp only [List.count_cons, List.count_append]
      omega
  | there p rest c d _ ih =>
      rw [allIds_cons]
      simp only [List.count_cons, List.count_append]
      omega

theorem chainTo_nonlink {pages c d} (h : ChainTo pages c d) :
    ∀ a ∈ c, a.isLink = false := by
  induction h with
  | here p rest => simp
  | inside p rest c d h ih =>
      intro a ha
      rcases List.mem_cons.mp ha with rfl | ha
      · cases a with
        | link i t => cases h
        | document i pa t ps => rfl
        | group i pa t ps => rfl
      · exact ih a ha
  | there p rest c d _ ih => exact ih

theorem chainTo_unique {pages : List RevisionPage} {c₁ c₂ : List RevisionPage}
    {d : RevisionPage} (hcnt : ∀ i, (allIds pages).count i ≤ 1)
    (h₁ : ChainTo pages c₁ d) (h₂ : ChainTo pages c₂ d) : c₁ = c₂ := by
  induction h₁ generalizing c₂ with
  | here p rest =>
      cases h₂ with
      | here => rfl
      | inside _ _ c₂ _ h₂ =>
          exfalso
          have hin := chainTo_one_le_count h₂
          have hc := hcnt p.id
          rw [allIds_cons] at hc
          simp only [List.count_cons, List.count_append, beq_self_eq_true, if_pos] at hc
          omega
      | there _ _ _ _ h₂ =>
          exfalso
          have hin := chainTo_one_le_count h₂
          have hc := hcnt p.id
          rw [allIds_cons] at hc
          simp only [List.count_cons, List.count_append, beq_self_eq_true, if_pos] at hc
          omega
  | inside p rest c d h₁ ih =>
      cases h₂ with
      | here =>
          exfalso
          have hin := chainTo_one_le_count h₁
          have hc := hcnt p.id
          rw [allIds_cons] at hc
          simp only [List.count_cons, List.count_append, beq_self_eq_true, if_pos] at hc
          omega
      | inside _ _ c₂ _ h₂ =>
          have hsub : ∀ i, (allIds p.pages).count i ≤ 1 := by
            intro i
            have hc := hcnt i
            rw [allIds_cons] at hc
            simp only [List.count_cons, List.count_append] at hc
            omega
          rw [ih hsub h₂]
      | there _ _ _ _ h₂ =>
          exfalso
          have hin₁ := chainTo_one_le_count h₁
          have hin₂ := chainTo_one_le_count h₂
          have hc := hcnt d.id
          rw [allIds_cons] at hc
          simp only [List.count_cons, List.count_append] at hc
          omega
  | there p rest c d h₁ ih =>
      cases h₂ with
      | here =>
          exfalso
          have hin := chainTo_one_le_count h₁
          have hc := hcnt p.id
          rw [allIds_cons] at hc
          simp only [List.count_cons, List.count_append, beq_self_eq_true, if_pos] at hc
          omega
      | inside _ _ c₂ _ h₂ =>
          exfalso
          have hin₁ := chainTo_one_le_count h₁
          have hin₂ := chainTo_one_le_count h₂
          have hc := hcnt d.id
          rw [allIds_cons] at hc
          simp only [List.count_cons, List.count_append] at hc
          omega
      | there _ _ _ _ h₂ =>
          have hsub : ∀ i, (allIds rest).count i ≤ 1 := by
            intro i
            have hc := hcnt i
            rw [allIds_cons] at hc
            simp only [List.count_cons, List.count_append] at hc
            omega
          exact ih hsub h₂

/-! ## Soundness of the resolvers with respect to occurrence chains -/

theorem resolveFirstDocument_sound :
    ∀ (pages ancestors : List RevisionPage) (r : Resolved),
    resolveFirstDocument pages ancestors = some r →
    ∃ c, r.ancestors = ancestors ++ c ∧ ChainTo pages c r.page ∧
      r.page.isDocument = true := by
  intro pages ancestors
  induction pages, ancestors using resolveFirstDocument.induct with
  | case1 anc =>
      intro r h
      simp [resolveFirstDocument] at h
  | case2 i t rest anc ih =>
      intro r h
      rw [resolveFirstDocument] at h
      obtain ⟨c, hc, hch, hd⟩ := ih r h
      exact ⟨c, hc, ChainTo.there _ _ _ _ hch, hd⟩
  | case3 i p t ps tail anc =>
      intro r h
      rw [resolveFirstDocument] at h
      cases h
      exact ⟨[], by simp, ChainTo.here _ _, rfl⟩
  | case4 i p t ps tail anc ih =>
      intro r h
      rw [resolveFirstDocument] at h
      obtain ⟨c, hc, hch, hd⟩ := ih r h
      refine ⟨.group i p t ps :: c, by simp [hc], ?_, hd⟩
      exact ChainTo.inside _ _ _ _ hch

theorem resolvePageDocument_sound {p : RevisionPage}
    {ancestors : List RevisionPage} {r : Resolved}
    (h : resolvePageDocument p ancestors = some r) :
    ∃ c, r.ancestors = ancestors ++ c ∧ ChainTo [p] c r.page ∧
      r.page.isDocument = true := by
  cases p with
  | document i pa t ps =>
      rw [resolvePageDocument] at h
      cases h
      exact ⟨[], by simp, ChainTo.here _ _, rfl⟩
  | link i t => cases h
  | group i pa t ps =>
      rw [resolvePageDocument] at h
      obtain ⟨c, hc, hch, hd⟩ := resolveFirstDocument_sound _ _ _ h
      refine ⟨.group i pa t ps :: c, by simp [hc], ?_, hd⟩
      exact ChainTo.inside _ _ _ _ hch

theorem chainTo_of_singleton {p d : RevisionPage} {rest c : List RevisionPage}
    (h : ChainTo [p] c d) : ChainTo (p :: rest) c d := by
  cases h with
  | here => exact ChainTo.here _ _
  | inside _ _ c _ h => exact ChainTo.inside _ _ _ _ h
  | there _ _ _ _ h => cases h

theorem iteratePagesId_sound :
    ∀ (pages ancestors : List RevisionPage) (pid : String) (r : Resolved),
    iteratePagesId pages ancestors pid = some r →
    ∃ c, r.ancestors = ancestors ++ c ∧ ChainTo pages c r.page ∧
      r.page.isDocument = true := by
  intro pages ancestors pid
  induction pages, ancestors, pid using iteratePagesId.induct with
  | case1 anc pid =>
      intro r h
      simp [iteratePagesId] at h
  | case2 i t rest anc pid ih =>
      intro r h
      rw [iteratePagesId] at h
      obtain ⟨c, hc, hch, hd⟩ := ih r h
      exact ⟨c, hc, ChainTo.there _ _ _ _ hch, hd⟩
  | case3 p t ps rest anc pid =>
      intro r h
      rw [iteratePagesId, if_pos rfl] at h
      obtain ⟨c, hc, hch, hd⟩ := resolvePageDocument_sound h
      exact ⟨c, hc, chainTo_of_singleton hch, hd⟩
  | case4 i p t ps rest anc pid hne r₀ hsub ih =>
      intro r h
      rw [iteratePagesId, if_neg hne, hsub] at h
      simp only [Option.some.injEq] at h
      subst h
      obtain ⟨c, hc, hch, hd⟩ := ih r₀ hsub
      exact ⟨.document i p t ps :: c, by simp [hc], ChainTo.inside _ _ _ _ hch, hd⟩
  | case5 i p t ps rest anc pid hne hnone ih₁ ih₂ =>
      intro r h
      rw [iteratePagesId, if_neg hne, hnone] at h
      obtain ⟨c, hc, hch, hd⟩ := ih₂ r h
      exact ⟨c, hc, ChainTo.there _ _ _ _ hch, hd⟩
  | case6 p t ps rest anc pid =>
      intro r h
      rw [iteratePagesId, if_pos rfl] at h
      obtain ⟨c, hc, hch, hd⟩ := resolvePageDocument_sound h
      exact ⟨c, hc, chainTo_of_singleton hch, hd⟩
  | case7 i p t ps rest anc pid hne r₀ hsub ih =>
      intro r h
      rw [iteratePagesId, if_neg hne, hsub] at h
      simp only [Option.some.injEq] at h
      subst h
      obtain ⟨c, hc, hch, hd⟩ := ih r₀ hsub
      exact ⟨.group i p t ps :: c, by simp [hc], ChainTo.inside _ _ _ _ hch, hd⟩
  | case8 i p t ps rest anc pid hne hnone ih₁ ih₂ =>
      intro r h
      rw [iteratePagesId, if_neg hne, hnone] at h
      obtain ⟨c, hc, hch, hd⟩ := ih₂ r h
      exact ⟨c, hc, ChainTo.there _ _ _ _ hch, hd⟩

theorem iteratePagesPath_sound :
    ∀ (pages ancestors : List RevisionPage) (pp : String) (r : Resolved),
    iteratePagesPath pages ancestors pp = some r →
    ∃ c, r.ancestors = ancestors ++ c ∧ ChainTo pages c r.page ∧
      r.page.isDocument = true := by
  intro pages ancestors pp
  induction pages, ancestors, pp using iteratePagesPath.induct with
  | case1 anc pp =>
      intro r h
      simp [iteratePagesPath] at h
  | case2 i t rest anc pp ih =>
      intro r h
      rw [iteratePagesPath] at h
      obtain ⟨c, hc, hch, hd⟩ := ih r h
      exact ⟨c, hc, ChainTo.there _ _ _ _ hch, hd⟩
  | case3 i t ps rest anc pp =>
      intro r h
      rw [iteratePagesPath, if_pos rfl] at h
      obtain ⟨c, hc, hch, hd⟩ := resolvePageDocument_sound h
      exact ⟨c, hc, chainTo_of_singleton hch, hd⟩
  | case4 i p t ps rest anc pp hne r₀ hsub ih =>
      intro r h
      rw [iteratePagesPath, if_neg hne, hsub] at h
      simp only [Option.some.injEq] at h
      subst h
      obtain ⟨c, hc, hch, hd⟩ := ih r₀ hsub
      exact ⟨.document i p t ps :: c, by simp [hc], ChainTo.inside _ _ _ _ hch, hd⟩
  | case5 i p t ps rest anc pp hne hnone ih₁ ih₂ =>
      intro r h
      rw [iteratePagesPath, if_neg hne, hnone] at h
      obtain ⟨c, hc, hch, hd⟩ := ih₂ r h
      exact ⟨c, hc, ChainTo.there _ _ _ _ hch, hd⟩
  | case6 i t ps rest anc pp =>
      intro r h
      rw [iteratePagesPath, if_pos rfl] at h
      obtain ⟨c, hc, hch, hd⟩ := resolvePageDocument_sound h
      exact ⟨c, hc, chainTo_of_singleton hch, hd⟩
  | case7 i p t ps rest anc pp hne r₀ hsub ih =>
      intro r h
      rw [iteratePagesPath, if_neg hne, hsub] at h
      simp only [Option.some.injEq] at h
      subst h
      obtain ⟨c, hc, hch, hd⟩ := ih r₀ hsub
      exact ⟨.group i p t ps :: c, by simp [hc], ChainTo.inside _ _ _ _ hch, hd⟩
  | case8 i p t ps rest anc pp hne hnone ih₁ ih₂ =>
      intro r h
      rw [iteratePagesPath, if_neg hne, hnone] at h
      obtain ⟨c, hc, hch, hd⟩ := ih₂ r h
      exact ⟨c, hc, ChainTo.there _ _ _ _ hch, hd⟩

/-! ## The flattened document sequence -/

theorem flattenPages_isDocument :
    ∀ (pages : List RevisionPage), ∀ p ∈ flattenPages pages, p.isDocument = true := by
  intro pages
  induction pages using flattenPages.induct with
  | case1 =>
      intro p hp
      simp [flattenPages] at hp
  | case2 i t rest ih =>
      intro p hp
      rw [flattenPages] at hp
      exact ih p hp
  | case3 i pa t ps rest ih₁ ih₂ =>
      intro p hp
      rw [flattenPages] at hp
      rcases List.mem_cons.mp hp with rfl | hp
      · rfl
      · rcases List.mem_append.mp hp with hp | hp
        · exact ih₁ p hp
        · exact ih₂ p hp
  | case4 i pa t ps rest ih₁ ih₂ =>
      intro p hp
      rw [flattenPages] at hp
      rcases List.mem_append.mp hp with hp | hp
      · exact ih₁ p hp
      · exact ih₂ p hp

theorem resolveFirstDocument_head :
    ∀ (pages ancestors : List RevisionPage) (r : Resolved),
    resolveFirstDocument pages ancestors = some r →
    (flattenPages pages).head? = some r.page := by
  intro pages ancestors
  induction pages, ancestors using resolveFirstDocument.induct with
  | case1 anc =>
      intro r h
      simp [resolveFirstDocument] at h
  | case2 i t rest anc ih =>
      intro r h
      rw [resolveFirstDocument] at h
      rw [flattenPages]
      exact ih r h
  | case3 i p t ps tail anc =>
      intro r h
      rw [resolveFirstDocument] at h
      cases h
      rw [flattenPages]
      rfl
  | case4 i p t ps tail anc ih =>
      intro r h
      rw [resolveFirstDocument] at h
      have hh := ih r h
      rw [flattenPages]
      cases e : flattenPages ps with
      | nil => rw [e] at hh; cases hh
      | cons a as =>
          rw [e] at hh
          simpa using hh

theorem flattenPages_nil_first_none :
    ∀ (pages ancestors : List RevisionPage), flattenPages pages = [] →
    resolveFirstDocument pages ancestors = none := by
  intro pages ancestors
  induction pages, ancestors using resolveFirstDocument.induct with
  | case1 anc =>
      intro h
      rw [resolveFirstDocument]
  | case2 i t rest anc ih =>
      intro h
      rw [flattenPages] at h
      rw [resolveFirstDocument]
      exact ih h
  | case3 i p t ps tail anc =>
      intro h
      rw [flattenPages] at h
      cases h
  | case4 i p t ps tail anc ih =>
      intro h
      rw [flattenPages] at h
      rw [resolveFirstDocument]
      exact ih (List.append_eq_nil.mp h).1

/-! ## Neighbor navigation -/

theorem findIndex_id_of_getElem :
    ∀ (l : List RevisionPage) (i : Nat) (x : RevisionPage),
    (l.map RevisionPage.id).Nodup → l[i]? = some x →
    findIndex (fun y => y.id == x.id) l = some i := by
  intro l
  induction l with
  | nil =>
      intro i x _ hx
      simp at hx
  | cons a t ih =>
      intro i x hnd hx
      cases i with
      | zero =>
          simp at hx
          subst hx
          simp [findIndex]
      | succ n =>
          simp only [List.getElem?_cons_succ] at hx
          have hxt : x ∈ t := List.getElem?_mem hx
          rw [List.map_cons, List.nodup_cons] at hnd
          obtain ⟨hna, hndt⟩ := hnd
          have hane : (a.id == x.id) = false := by
            refine beq_eq_false_iff_ne.mpr ?_
            intro he
            exact hna (he ▸ List.mem_map_of_mem RevisionPage.id hxt)
          have hrec := ih n x hndt hx
          simp [findIndex, hane, hrec]

/-! ## Claim theorems -/

/-- C4: for every tree whose flattened document sequence has pairwise
distinct ids (the data model's id-uniqueness invariant) and every document
D of that sequence, the neighbor relation of `resolvePrevNextPages` is
consistent in both directions: if D's next is E then E's previous is D,
and if D's previous is E then E's next is D. -/
theorem c4_prevNext_consistent (T : List RevisionPage) (D E : RevisionPage)
    (hnd : ((flattenPages T).map RevisionPage.id).Nodup)
    (hD : D ∈ flattenPages T) :
    ((resolvePrevNextPages T D).next = some E →
      (resolvePrevNextPages T E).previous = some D) ∧
    ((resolvePrevNextPages T D).previous = some E →
      (resolvePrevNextPages T E).next = some D) := by
  obtain ⟨i, hi⟩ := List.getElem?_of_mem hD
  have hfD := findIndex_id_of_getElem _ i D hnd hi
  constructor
  · intro hnext
    rw [resolvePrevNextPages] at hnext
    simp only [hfD] at hnext
    have hE : (flattenPages T)[i+1]? = some E := hnext
    have hfE := findIndex_id_of_getElem _ (i+1) E hnd hE
    rw [resolvePrevNextPages]
    simp only [hfE]
    simp [hi]
  · intro hprev
    rw [resolvePrevNextPages] at hprev
    simp only [hfD] at hprev
    by_cases hz : i = 0
    · rw [if_pos hz] at hprev
      cases hprev
    · rw [if_neg hz] at hprev
      have hfE := findIndex_id_of_getElem _ (i-1) E hnd hprev
      rw [resolvePrevNextPages]
      simp only [hfE]
      have hii : i - 1 + 1 = i := by omega
      simp [hii, hi]

theorem isLink_false_of_isDocument {p : RevisionPage} (h : p.isDocument = true) :
    p.isLink = false := by
  cases p <;> simp_all [RevisionPage.isLink, RevisionPage.isDocument]

/-- C5: on a tree satisfying the data model's id-uniqueness invariant, when
`resolvePageId` (queried with D's id) and `resolvePagePath` (queried with
D's path) both resolve to the same document D, they return identical
ancestor chains. -/
theorem c5_resolvers_agree (T : List RevisionPage) (D : RevisionPage)
    (r₁ r₂ : Resolved) (huniq : (allIds T).Nodup)
    (h₁ : resolvePageId T D.id = some r₁) (hp₁ : r₁.page = D)
    (h₂ : resolvePagePath T D.path = some r₂) (hp₂ : r₂.page = D) :
    r₁.ancestors = r₂.ancestors := by
  have hcnt : ∀ i, (allIds T).count i ≤ 1 :=
    List.nodup_iff_count_le_one.mp huniq
  obtain ⟨c₁, hc₁, hch₁, _⟩ := iteratePagesId_sound T [] D.id r₁ h₁
  rw [hp₁] at hch₁
  have hex : ∃ c₂, r₂.ancestors = c₂ ∧ ChainTo T c₂ D := by
    rw [resolvePagePath] at h₂
    by_cases he : D.path = ""
    · rw [if_pos he] at h₂
      obtain ⟨c₂, hc₂, hch₂, _⟩ := resolveFirstDocument_sound T [] r₂ h₂
      exact ⟨c₂, by simpa using hc₂, hp₂ ▸ hch₂⟩
    · rw [if_neg he] at h₂
      obtain ⟨c₂, hc₂, hch₂, _⟩ := iteratePagesPath_sound T [] D.path r₂ h₂
      exact ⟨c₂, by simpa using hc₂, hp₂ ▸ hch₂⟩
  obtain ⟨c₂, hc₂, hchain₂⟩ := hex
  have heq := chainTo_unique hcnt hch₁ hchain₂
  rw [hc₂, ← heq]
  simpa using hc₁

/-- C9: a link node is never the page returned by `resolvePagePath`,
`resolvePageId` or `resolvePageDocument`, never occurs in a returned
ancestor chain (given that the chain passed to the shared helper is
link-free, as it always is inside the resolvers), and never occurs in the
flattened sequence used by `resolvePrevNextPages`. -/
theorem c9_links_never_returned :
    (∀ (T : List RevisionPage) (q : String) (r : Resolved),
        resolvePagePath T q = some r →
        r.page.isLink = false ∧ ∀ a ∈ r.ancestors, a.isLink = false) ∧
    (∀ (T : List RevisionPage) (i : String) (r : Resolved),
        resolvePageId T i = some r →
        r.page.isLink = false ∧ ∀ a ∈ r.ancestors, a.isLink = false) ∧
    (∀ (p : RevisionPage) (ancestors : List RevisionPage) (r : Resolved),
        (∀ a ∈ ancestors, a.isLink = false) →
        resolvePageDocument p ancestors = some r →
        r.page.isLink = false ∧ ∀ a ∈ r.ancestors, a.isLink = false) ∧
    (∀ (T : List RevisionPage), ∀ p ∈ flattenPages T, p.isLink = false) := by
  refine ⟨?_, ?_, ?_, ?_⟩
  · intro T q r h
    rw [resolvePagePath] at h
    by_cases he : q = ""
    · rw [if_pos he] at h
      obtain ⟨c, hc, hch, hd⟩ := resolveFirstDocument_sound T [] r h
      refine ⟨isLink_false_of_isDocument hd, ?_⟩
      intro a ha
      rw [hc] at ha
      simp only [List.nil_append] at ha
      exact chainTo_nonlink hch a ha
    · rw [if_neg he] at h
      obtain ⟨c, hc, hch, hd⟩ := iteratePagesPath_sound T [] q r h
      refine ⟨isLink_false_of_isDocument hd, ?_⟩
      intro a ha
      rw [hc] at ha
      simp only [List.nil_append] at ha
      exact chainTo_nonlink hch a ha
  · intro T i r h
    obtain ⟨c, hc, hch, hd⟩ := iteratePagesId_sound T [] i r h
    refine ⟨isLink_false_of_isDocument hd, ?_⟩
    intro a ha
    rw [hc] at ha
    simp only [List.nil_append] at ha
    exact chainTo_nonlink hch a ha
  · intro p ancestors r hanc h
    obtain ⟨c, hc, hch, hd⟩ := resolvePageDocument_sound h
    refine ⟨isLink_false_of_isDocument hd, ?_⟩
    intro a ha
    rw [hc] at ha
    rcases List.mem_append.mp ha with ha | ha
    · exact hanc a ha
    · exact chainTo_nonlink hch a ha
  · exact fun T p hp => isLink_false_of_isDocument (flattenPages_isDocument T p hp)

/-- C1 (amended): for the empty path, when `resolvePagePath` returns a
document it is the first element of the flattened sequence used by
`resolvePrevNextPages`, and an empty flattened sequence forces not-found;
but not-found can also occur on a non-empty sequence (see the
counterexample), so "not-found iff empty" fails in one direction. -/
theorem c1_empty_path_first_document :
    ∀ (T : List RevisionPage) (r : Resolved),
    (resolvePagePath T "" = some r → (flattenPages T).head? = some r.page) ∧
    (flattenPages T = [] → resolvePagePath T "" = none) := by
  intro T r
  constructor
  · intro h
    rw [resolvePagePath, if_pos rfl] at h
    exact resolveFirstDocument_head T [] r h
  · intro h
    rw [resolvePagePath, if_pos rfl]
    exact flattenPages_nil_first_none T [] h

/-- C1 counterexample: a tree whose first non-link root is a childless
group followed by a document. The flattened document sequence is non-empty
(it holds the document), yet `resolvePagePath` with the empty path returns
not-found, refuting "not-found iff the flattened sequence is empty". -/
theorem c1_counterexample :
    resolvePagePath [.group "g" "gp" "G" [], .document "d" "dp" "D" []] "" = none ∧
    flattenPages [.group "g" "gp" "G" [], .document "d" "dp" "D" []] =
      [.document "d" "dp" "D" []] := by
  constructor
  · simp [resolvePagePath, resolveFirstDocument]
  · simp [flattenPages]

theorem resolveFirstDocument_eq_specFirstDoc :
    ∀ (pages ancestors : List RevisionPage),
    resolveFirstDocument pages ancestors = specFirstDoc pages ancestors := by
  intro pages ancestors
  induction pages, ancestors using resolveFirstDocument.induct with
  | case1 anc =>
      simp only [resolveFirstDocument, specFirstDoc]
  | case2 i t rest anc ih =>
      simp only [resolveFirstDocument, specFirstDoc, RevisionPage.isLink, if_true]
      exact ih
  | case3 i p t ps tail anc =>
      simp only [resolveFirstDocument, specFirstDoc, RevisionPage.isLink,
        Bool.false_eq_true, if_false]
  | case4 i p t ps tail anc ih =>
      simp only [resolveFirstDocument, specFirstDoc, RevisionPage.isLink,
        Bool.false_eq_true, if_false]
      exact ih

/-- C6 (amended): the shared helper `resolvePageDocument` behaves exactly
as the spec's leftmost descent: a document returns itself, a link fails,
and a group descends into its first non-link child at each level with each
entered group appended to the ancestor chain — failing when the descent
dead-ends, even if the group has resolvable document descendants reachable
only through later siblings. -/
theorem c6_resolveDocument_refines_descent :
    ∀ (p : RevisionPage) (ancestors : List RevisionPage),
    resolvePageDocument p ancestors = specDescent p ancestors := by
  intro p ancestors
  cases p with
  | document i pa t ps => rfl
  | link i t => rfl
  | group i pa t ps =>
      rw [resolvePageDocument, specDescent]
      exact resolveFirstDocument_eq_specFirstDoc ps (ancestors ++ [.group i pa t ps])

/-- C6 counterexample: a group whose first non-link child is a childless
group, followed by a document child. The group has a resolvable document
descendant (the flattened child sequence is non-empty), yet
`resolvePageDocument` returns not-found, refuting "not-found only when the
group has no resolvable document descendant". -/
theorem c6_counterexample :
    resolvePageDocument
      (.group "g" "gp" "G" [.group "h" "hp" "H" [], .document "d" "dp" "D" []]) [] = none ∧
    flattenPages
      (RevisionPage.group "g" "gp" "G"
        [.group "h" "hp" "H" [], .document "d" "dp" "D" []]).pages =
      [.document "d" "dp" "D" []] := by
  constructor
  · simp [resolvePageDocument, resolveFirstDocument]
  · simp [flattenPages, RevisionPage.pages]

/-- C2 (amended): in a sectioned site structure, the site-space directory
replaces each site-space's space title by its section's title whenever the
section's title is non-empty (`section.title || siteSpace.space.title`);
the space keeps its own title only when the section's title is empty. -/
theorem c2_section_title_precedence :
    ∀ (secs : List SiteSection),
    buildSiteSpaces (.sections secs) =
      secs.flatMap (fun sec => sec.siteSpaces.map (fun ss =>
        { ss with space := { ss.space with
            title := if sec.title = "" then ss.space.title else sec.title } })) := by
  intro secs
  rw [buildSiteSpaces]
  suffices h : ∀ (l : List SiteSection) (init : List SiteSpace),
      l.foldl (fun prev sec =>
        prev ++ sec.siteSpaces.map (fun ss =>
          { ss with space := { ss.space with
              title := if sec.title = "" then ss.space.title else sec.title } })) init =
      init ++ l.flatMap (fun sec => sec.siteSpaces.map (fun ss =>
        { ss with space := { ss.space with
            title := if sec.title = "" then ss.space.title else sec.title } })) by
    simpa using h secs []
  intro l
  induction l with
  | nil => intro init; simp
  | cons a t ih =>
      intro init
      simp [List.foldl_cons, ih, List.flatMap_cons, List.append_assoc]

/-- C2 counterexample: a sectioned site with section title `"Sec"` whose
site-space's own space title is the distinct `"Own"`. The multi-space
search result records `"Sec"` as the display (space) title: the section's
title overrides even though the site-space had a distinct title of its
own, refuting "overridden only when the site-space has no distinct title". -/
theorem c2_counterexample :
    (searchSiteContent (fun p => p)
      [⟨"sp1", [⟨"r1", "Page", "/p", none⟩]⟩]
      (.sections [⟨"Sec", [⟨"ss1", ⟨"sp1", "Own", none, none⟩, "https://site"⟩]⟩])
      "hello" .all).1 =
      [.page "r1" "Page" "https://site/p" (some "Sec")] ∧
    "Sec" ≠ "Own" := by
  constructor
  · rfl
  · decide

/-- C8: a query of length at most one short-circuits `searchSiteContent`:
the result list is empty and neither the search backend nor the
site-structure fetch is invoked. -/
theorem c8_short_query_no_backend :
    ∀ (absHref : String → String) (backend : List SearchSpaceItem)
      (siteStruct : SiteStructure) (query : String) (scope : Scope),
    query.length ≤ 1 →
    searchSiteContent absHref backend siteStruct query scope = ([], ⟨false, false⟩) := by
  intro _ _ _ q _ hq
  unfold searchSiteContent
  rw [if_pos hq]

/-- C3: an answer chunk whose only source is a page source for space S,
where S's page-list fetch fails (modelled per the spec as the cache staying
unpopulated for S), still yields an `AskAnswerResult`: its sources are
empty while the body and the follow-up questions still come from the chunk. -/
theorem c3_failed_fetch_drops_source
    (fetch : String → Option (List RevisionPage))
    (phref : List RevisionPage → RevisionPage → String)
    (a : SearchAIAnswer) (pid S : String)
    (hs : a.sources = [.page pid S]) (hf : fetch S = none) :
    (transformAnswer fetch phref a []).1 =
      ⟨answerBody a, a.followupQuestions, []⟩ := by
  unfold transformAnswer
  simp [hs, referencedSpaces, fetchSpaces, cacheHas, cacheGet, hf]

/-! ## Fetch-once accounting for the answer aggregation session -/

theorem cacheHas_set (c : SpaceCache) (s x : String) (v : List RevisionPage) :
    cacheHas (cacheSet c s v) x = (cacheHas c x || s == x) := by
  simp [cacheHas, cacheSet, List.any_append]

theorem fetchSpaces_has (fetch : String → Option (List RevisionPage))
    (hsucc : ∀ s, (fetch s).isSome = true) :
    ∀ (spaces : List String) (cache : SpaceCache) (x : String),
    cacheHas (fetchSpaces fetch cache spaces).1 x = true ↔
      (cacheHas cache x = true ∨ x ∈ spaces) := by
  intro spaces
  induction spaces with
  | nil =>
      intro cache x
      simp [fetchSpaces]
  | cons sp rest ih =>
      intro cache x
      by_cases hc : cacheHas cache sp = true
      · rw [fetchSpaces, if_pos hc, ih]
        constructor
        · rintro (h | h)
          · exact Or.inl h
          · exact Or.inr (List.mem_cons_of_mem _ h)
        · rintro (h | h)
          · exact Or.inl h
          · rcases List.mem_cons.mp h with rfl | h
            · exact Or.inl hc
            · exact Or.inr h
      · have hb : cacheHas cache sp = false := by simpa using hc
        obtain ⟨pages, hp⟩ := Option.isSome_iff_exists.mp (hsucc sp)
        rw [fetchSpaces, if_neg (by simp [hb]), hp]
        simp only []
        rw [ih]
        rw [show cacheHas (cacheSet cache sp pages) x = (cacheHas cache x || sp == x) from
          cacheHas_set cache sp x pages]
        simp only [Bool.or_eq_true, beq_iff_eq, List.mem_cons]
        constructor
        · rintro ((h | rfl) | h)
          · exact Or.inl h
          · exact Or.inr (Or.inl rfl)
          · exact Or.inr (Or.inr h)
        · rintro (h | rfl | h)
          · exact Or.inl (Or.inl h)
          · exact Or.inl (Or.inr rfl)
          · exact Or.inr h

theorem fetchSpaces_count (fetch : String → Option (List RevisionPage))
    (hsucc : ∀ s, (fetch s).isSome = true) :
    ∀ (spaces : List String) (cache : SpaceCache) (S : String), spaces.Nodup →
    ((fetchSpaces fetch cache spaces).2).count S =
      if S ∈ spaces ∧ cacheHas cache S = false then 1 else 0 := by
  intro spaces
  induction spaces with
  | nil =>
      intro cache S _
      simp [fetchSpaces]
  | cons sp rest ih =>
      intro cache S hnd
      obtain ⟨hnotin, hndr⟩ := List.nodup_cons.mp hnd
      by_cases hc : cacheHas cache sp = true
      · rw [fetchSpaces, if_pos hc, ih cache S hndr]
        by_cases hx : S = sp
        · subst hx
          simp [hc, hnotin]
        · simp [List.mem_cons, hx]
      · have hb : cacheHas cache sp = false := by simpa using hc
        obtain ⟨pages, hp⟩ := Option.isSome_iff_exists.mp (hsucc sp)
        rw [fetchSpaces, if_neg (by simp [hb]), hp]
        simp only [List.count_cons]
        rw [ih (cacheSet cache sp pages) S hndr]
        by_cases hx : S = sp
        · subst hx
          simp [hnotin, hb]
        · have hxx : (sp == S) = false := by
            simpa using fun h => hx h.symm
          simp only [hxx, if_false, cacheHas_set]
          have hss : (sp == S) = false := hxx
          simp [List.mem_cons, hx, hss]

theorem referencedSpaces_nodup (sources : List AskSource) :
    (referencedSpaces sources).Nodup := by
  unfold referencedSpaces
  suffices h : ∀ (l : List AskSource) (acc : List String), acc.Nodup →
      (l.foldl (fun acc src =>
        match src with
        | .page _ sp => if sp ∈ acc then acc else acc ++ [sp]
        | .snippet _ => acc) acc).Nodup by
    exact h sources [] List.nodup_nil
  intro l
  induction l with
  | nil =>
      intro acc h
      simpa using h
  | cons s t ih =>
      intro acc h
      rw [List.foldl_cons]
      cases s with
      | snippet j => exact ih acc h
      | page pid sp =>
          by_cases hm : sp ∈ acc
          · simpa [hm] using ih acc h
          · simp only [hm, if_false]
            refine ih _ ?_
            simp [List.nodup_append, h, hm]

theorem transformAnswer_cache (fetch : String → Option (List RevisionPage))
    (phref : List RevisionPage → RevisionPage → String)
    (a : SearchAIAnswer) (cache : SpaceCache) :
    (transformAnswer fetch phref a cache).2.1 =
      (fetchSpaces fetch cache (referencedSpaces a.sources)).1 := rfl

theorem transformAnswer_trace (fetch : String → Option (List RevisionPage))
    (phref : List RevisionPage → RevisionPage → String)
    (a : SearchAIAnswer) (cache : SpaceCache) :
    (transformAnswer fetch phref a cache).2.2 =
      (fetchSpaces fetch cache (referencedSpaces a.sources)).2 := rfl

theorem runStream_has (fetch : String → Option (List RevisionPage))
    (phref : List RevisionPage → RevisionPage → String)
    (hsucc : ∀ s, (fetch s).isSome = true) :
    ∀ (chunks : List (Option SearchAIAnswer)) (cache : SpaceCache) (x : String),
    cacheHas (runStream fetch phref chunks cache).2.1 x = true ↔
      (cacheHas cache x = true ∨ x ∈ sessionSpaces chunks) := by
  intro chunks
  induction chunks with
  | nil =>
      intro cache x
      simp [runStream, sessionSpaces]
  | cons oc rest ih =>
      intro cache x
      cases oc with
      | none => simp [runStream, sessionSpaces, ih]
      | some a =>
          rw [runStream]
          simp only []
          rw [ih, transformAnswer_cache, fetchSpaces_has fetch hsucc, sessionSpaces]
          simp only [List.mem_append]
          tauto

theorem runStream_count (fetch : String → Option (List RevisionPage))
    (phref : List RevisionPage → RevisionPage → String)
    (hsucc : ∀ s, (fetch s).isSome = true) :
    ∀ (chunks : List (Option SearchAIAnswer)) (cache : SpaceCache) (S : String),
    ((runStream fetch phref chunks cache).2.2).count S =
      if S ∈ sessionSpaces chunks ∧ cacheHas cache S = false then 1 else 0 := by
  intro chunks
  induction chunks with
  | nil =>
      intro cache S
      simp [runStream, sessionSpaces]
  | cons oc rest ih =>
      intro cache S
      cases oc with
      | none => simp [runStream, sessionSpaces, ih]
      | some a =>
          rw [runStream]
          simp only [List.count_append]
          rw [ih, transformAnswer_trace,
            fetchSpaces_count fetch hsucc _ cache S (referencedSpaces_nodup a.sources),
            transformAnswer_cache]
          have hafter := fetchSpaces_has fetch hsucc (referencedSpaces a.sources) cache S
          rw [sessionSpaces]
          simp only [List.mem_append]
          by_cases hC : cacheHas cache S = true
          · have h1 : cacheHas (fetchSpaces fetch cache (referencedSpaces a.sources)).1 S = true :=
              hafter.mpr (Or.inl hC)
            simp [hC, h1]
          · have hCf : cacheHas cache S = false := by simpa using hC
            by_cases hA : S ∈ referencedSpaces a.sources
            · have h1 : cacheHas (fetchSpaces fetch cache (referencedSpaces a.sources)).1 S = true :=
                hafter.mpr (Or.inr hA)
              simp [hA, hCf, h1]
            · have h1 : cacheHas (fetchSpaces fetch cache (referencedSpaces a.sources)).1 S = false := by
                rw [Bool.eq_false_iff]
                intro hcontra
                rcases hafter.mp hcontra with h | h
                · rw [h] at hCf
                  cases hCf
                · exact hA h
              simp [hA, hCf, h1]

/-- C7: over one aggregation session (one `streamAskQuestion` invocation,
one cache), when fetches succeed, every space is fetched exactly once if
it is referenced by some chunk's page-type sources and never otherwise —
in particular two sources of one chunk, or sources of successive chunks,
referencing the same space trigger a single fetch. The fetch loop is the
sequential pass `fetchSpaces` (the `pMap` with `concurrency: 1`), so
fetches are serialized by construction. -/
theorem c7_fetch_once (fetch : String → Option (List RevisionPage))
    (phref : List RevisionPage → RevisionPage → String)
    (chunks : List (Option SearchAIAnswer)) (S : String)
    (hsucc : ∀ s, (fetch s).isSome = true) :
    ((streamAskQuestion fetch phref chunks).2.2).count S =
      if S ∈ sessionSpaces chunks then 1 else 0 := by
  unfold streamAskQuestion
  rw [runStream_count fetch phref hsucc chunks [] S]
  simp [cacheHas]

theorem filterMap_sources_eq (phref : List RevisionPage → RevisionPage → String)
    (C : SpaceCache) :
    ∀ (l : List AskSource),
    (l.filterMap (fun source =>
      match source with
      | .snippet _ => none
      | .page pid sp =>
          match cacheGet C sp with
          | none => none
          | some pages =>
              match resolvePageId pages pid with
              | none => none
              | some r => some ⟨pid, r.page.title, phref pages r.page⟩)) =
      (l.filter (resolvesOk C)).map (entryOf phref C) := by
  intro l
  induction l with
  | nil => rfl
  | cons s t ih =>
      cases s with
      | snippet j =>
          simp only [List.filterMap_cons, List.filter_cons, resolvesOk,
            Bool.false_eq_true, if_false]
          exact ih
      | page pid sp =>
          cases hg : cacheGet C sp with
          | none =>
              simp only [List.filterMap_cons, List.filter_cons, resolvesOk, hg,
                Bool.false_eq_true, if_false]
              exact ih
          | some pages =>
              cases hr : resolvePageId pages pid with
              | none =>
                  simp only [List.filterMap_cons, List.filter_cons, resolvesOk, hg, hr,
                    Option.isSome_none, Bool.false_eq_true, if_false]
                  exact ih
              | some r =>
                  simp only [List.filterMap_cons, List.filter_cons, resolvesOk, hg, hr,
                    Option.isSome_some, if_true, List.map_cons, entryOf, List.cons.injEq]
                  exact ⟨trivial, ih⟩

/-- C10: the sources of the `AskAnswerResult` produced by `transformAnswer`
are exactly the chunk's page-type sources that resolve against the
populated cache (space data present and page id resolving), in the
chunk's source order, each mapped to its resolved entry; non-page sources
never contribute. -/
theorem c10_sources_exact (fetch : String → Option (List RevisionPage))
    (phref : List RevisionPage → RevisionPage → String)
    (a : SearchAIAnswer) (cache : SpaceCache) :
    (transformAnswer fetch phref a cache).1.sources =
      ((a.sources.filter
          (resolvesOk (fetchSpaces fetch cache (referencedSpaces a.sources)).1)).map
        (entryOf phref (fetchSpaces fetch cache (referencedSpaces a.sources)).1)) := by
  unfold transformAnswer
  exact filterMap_sources_eq phref _ a.sources

/-! ## Witnesses -/

/-- Witness for C1: on a one-document tree the empty path resolves to the
head of the flattened sequence, and on a links-only tree (empty flattened
sequence) it resolves to not-found. -/
theorem c1_witness :
    (flattenPages [.document "d" "p" "D" []]).head? =
      some (Resolved.mk (.document "d" "p" "D" []) []).page ∧
    resolvePagePath [.link "l" "L"] "" = none := by
  constructor
  · exact (c1_empty_path_first_document [.document "d" "p" "D" []]
      ⟨.document "d" "p" "D" [], []⟩).1
      (by simp [resolvePagePath, resolveFirstDocument])
  · exact (c1_empty_path_first_document [.link "l" "L"]
      ⟨.link "l" "L", []⟩).2 (by simp [flattenPages])

/-- Witness for C3: a chunk whose only source references a space whose
fetch fails still produces a result with empty sources and the chunk's
follow-up questions and body. -/
theorem c3_witness :
    (transformAnswer (fun _ => none) (fun _ _ => "")
      ⟨none, ["q"], [.page "p" "S"]⟩ []).1 =
      ⟨none, ["q"], []⟩ :=
  c3_failed_fetch_drops_source (fun _ => none) (fun _ _ => "")
    ⟨none, ["q"], [.page "p" "S"]⟩ "p" "S" rfl rfl

/-- Witness for C4: in a two-document tree, A's next is B, so B's previous
is A. -/
theorem c4_witness :
    (resolvePrevNextPages [.document "a" "pa" "A" [], .document "b" "pb" "B" []]
      (.document "b" "pb" "B" [])).previous = some (.document "a" "pa" "A" []) := by
  refine (c4_prevNext_consistent
    [.document "a" "pa" "A" [], .document "b" "pb" "B" []]
    (.document "a" "pa" "A" []) (.document "b" "pb" "B" []) ?_ ?_).1 ?_
  · simp [flattenPages, RevisionPage.id]
  · simp [flattenPages]
  · simp [resolvePrevNextPages, flattenPages, findIndex, RevisionPage.id]

/-- Witness for C5: on a group-wrapped document, id and path resolution
both return the chain holding the wrapping group. -/
theorem c5_witness :
    (Resolved.mk (.document "d" "dp" "D" [])
      [.group "g" "gp" "G" [.document "d" "dp" "D" []]]).ancestors =
    (Resolved.mk (.document "d" "dp" "D" [])
      [.group "g" "gp" "G" [.document "d" "dp" "D" []]]).ancestors := by
  refine c5_resolvers_agree
    [.group "g" "gp" "G" [.document "d" "dp" "D" []]]
    (.document "d" "dp" "D" [])
    ⟨.document "d" "dp" "D" [], [.group "g" "gp" "G" [.document "d" "dp" "D" []]]⟩
    ⟨.document "d" "dp" "D" [], [.group "g" "gp" "G" [.document "d" "dp" "D" []]]⟩
    ?_ ?_ rfl ?_ rfl
  · simp [allIds]
  · simp [resolvePageId, iteratePagesId, resolvePageDocument, RevisionPage.id]
  · simp [resolvePagePath, iteratePagesPath, resolvePageDocument, RevisionPage.path]

/-- Witness for C7: two sources of one chunk and one source of the next
chunk all reference space S; the session fetches S exactly once. -/
theorem c7_witness :
    ((streamAskQuestion (fun _ => some []) (fun _ _ => "")
      [some ⟨none, [], [.page "p1" "S", .page "p2" "S"]⟩,
       some ⟨none, [], [.page "p3" "S"]⟩]).2.2).count "S" = 1 := by
  rw [c7_fetch_once (fun _ => some []) (fun _ _ => "")
    [some ⟨none, [], [.page "p1" "S", .page "p2" "S"]⟩,
     some ⟨none, [], [.page "p3" "S"]⟩] "S" (fun _ => rfl)]
  simp [sessionSpaces, referencedSpaces]

/-- Witness for C8: a one-character query returns no results and consults
no backend. -/
theorem c8_witness :
    searchSiteContent (fun p => p) [] (.siteSpaces []) "x" .all =
      ([], ⟨false, false⟩) :=
  c8_short_query_no_backend (fun p => p) [] (.siteSpaces []) "x" .all (by decide)

/-- Witness for C9: all four components exercised on a one-document tree. -/
theorem c9_witness :
    ((Resolved.mk (.document "d" "dp" "D" []) []).page.isLink = false ∧
      ∀ a ∈ (Resolved.mk (.document "d" "dp" "D" []) []).ancestors, a.isLink = false) ∧
    ((Resolved.mk (.document "d" "dp" "D" []) []).page.isLink = false ∧
      ∀ a ∈ (Resolved.mk (.document "d" "dp" "D" []) []).ancestors, a.isLink = false) ∧
    ((Resolved.mk (.document "d" "dp" "D" []) []).page.isLink = false ∧
      ∀ a ∈ (Resolved.mk (.document "d" "dp" "D" []) []).ancestors, a.isLink = false) ∧
    (RevisionPage.document "d" "dp" "D" []).isLink = false := by
  refine ⟨?_, ?_, ?_, ?_⟩
  · exact c9_links_never_returned.1 [.document "d" "dp" "D" []] "dp"
      ⟨.document "d" "dp" "D" [], []⟩
      (by simp [resolvePagePath, iteratePagesPath, resolvePageDocument])
  · exact c9_links_never_returned.2.1 [.document "d" "dp" "D" []] "d"
      ⟨.document "d" "dp" "D" [], []⟩
      (by simp [resolvePageId, iteratePagesId, resolvePageDocument])
  · exact c9_links_never_returned.2.2.1 (.document "d" "dp" "D" []) []
      ⟨.document "d" "dp" "D" [], []⟩ (by simp)
      (by simp [resolvePageDocument])
  · exact c9_links_never_returned.2.2.2 [.document "d" "dp" "D" []]
      (.document "d" "dp" "D" []) (by simp [flattenPages])
